import Mathlib

/-!
Shallow embedding of the Cyber-Attack-detector core: the directed graph
store (`src/backend/models/graph.py`) and the detection engine
(`src/backend/algorithms/detection.py`).

Conventions of the embedding:
* Python `int` is modelled as `ℤ` (thresholds, degree comparisons) and
  counts as `ℕ` where the source value is a length.
* Python `float` arithmetic on confidences is modelled exactly over `ℚ`;
  every confidence the code computes is a dyadic-style rational and no
  claim depends on binary rounding.
* Python dicts keyed by id are modelled as insertion-ordered association
  lists; `networkx.DiGraph` is modelled as an insertion-ordered node list
  plus an insertion-ordered edge-key list.
* Node identifiers are an arbitrary linearly ordered type `α` (the source
  uses opaque strings; the order is used only to pick a canonical rotation
  when enumerating simple cycles).
-/

/-- `AttackType` enum from `models/graph.py`. -/
inductive AttackType where
  | DDOS
  | BOTNET
  | PORT_SCAN
  | WORM
  | C2
deriving DecidableEq, Repr

/-- The `.value` string of each enum member. -/
def AttackType.value : AttackType → String
  | .DDOS => "ddos"
  | .BOTNET => "botnet"
  | .PORT_SCAN => "port_scan"
  | .WORM => "worm"
  | .C2 => "c2"

/-- `NetworkNode` dataclass (`models/graph.py`); the open `metadata` bag is
not modelled because no detector or claim reads it. -/
structure NetworkNode (α : Type) where
  id : α
  ip : String
  node_type : String
deriving DecidableEq, Repr

/-- `NetworkEdge` dataclass (`models/graph.py`); the open `metadata` bag is
not modelled because no detector or claim reads it. -/
structure NetworkEdge (α : Type) where
  source : α
  target : α
  weight : ℚ := 1
  protocol : String := "TCP"
  port : ℕ := 80
  timestamp : ℚ := 0
deriving DecidableEq, Repr

/-- `AttackAlert` dataclass (`models/graph.py`); the human-readable
`description` string is not modelled because no claim reads it. -/
structure AttackAlert (α : Type) where
  attack_type : AttackType
  source_nodes : List α
  target_nodes : List α
  confidence : ℚ
  timestamp : ℚ
  severity : String := "medium"
deriving DecidableEq, Repr

/-- The `attack_thresholds` dict of `NetworkGraph.__init__`, as a record of
Python ints (externally mutable, so each field ranges over all of `ℤ`). -/
structure Thresholds where
  ddos_indegree : ℤ
  port_scan_outdegree : ℤ
  worm_reachability : ℤ
  c2_indegree_min : ℤ
  c2_outdegree_max : ℤ
deriving DecidableEq, Repr

/-- The default thresholds installed by `NetworkGraph.__init__`. -/
def default_thresholds : Thresholds :=
  { ddos_indegree := 50
    port_scan_outdegree := 30
    worm_reachability := 100
    c2_indegree_min := 10
    c2_outdegree_max := 5 }

/-- Model of `networkx.DiGraph` as used by the source: an
insertion-ordered list of nodes and an insertion-ordered list of directed
edge keys (attribute payloads live in the `NetworkGraph` record maps). -/
structure DiGraph (α : Type) where
  nodesList : List α
  edgesList : List (α × α)
deriving DecidableEq, Repr

/-- `nx.DiGraph.add_node`: no-op when present, else append. -/
def DiGraph.add_node {α : Type} [DecidableEq α] (g : DiGraph α) (v : α) : DiGraph α :=
  if v ∈ g.nodesList then g else { g with nodesList := g.nodesList ++ [v] }

/-- `nx.DiGraph.add_edge`: inserts both endpoints as nodes when absent
(source first, then target), then inserts the edge key when absent. -/
def DiGraph.add_edge {α : Type} [DecidableEq α] (g : DiGraph α) (u v : α) : DiGraph α :=
  let g1 := (g.add_node u).add_node v
  if (u, v) ∈ g1.edgesList then g1 else { g1 with edgesList := g1.edgesList ++ [(u, v)] }

/-- `nx.DiGraph.remove_node`: drops the node and every edge incident to it
in either direction. -/
def DiGraph.remove_node {α : Type} [DecidableEq α] (g : DiGraph α) (v : α) : DiGraph α :=
  { nodesList := g.nodesList.filter (fun x => ¬ x = v)
    edgesList := g.edgesList.filter (fun e => ¬ (e.1 = v ∨ e.2 = v)) }

/-- `nx.DiGraph.remove_edge`: drops the edge key. -/
def DiGraph.remove_edge {α : Type} [DecidableEq α] (g : DiGraph α) (u v : α) : DiGraph α :=
  { g with edgesList := g.edgesList.filter (fun e => ¬ e = (u, v)) }

/-- `nx.DiGraph.in_degree`: number of edges ending at `v`. -/
def DiGraph.in_degree {α : Type} [DecidableEq α] (g : DiGraph α) (v : α) : ℕ :=
  (g.edgesList.filter (fun e => e.2 = v)).length

/-- `nx.DiGraph.out_degree`: number of edges starting at `v`. -/
def DiGraph.out_degree {α : Type} [DecidableEq α] (g : DiGraph α) (v : α) : ℕ :=
  (g.edgesList.filter (fun e => e.1 = v)).length

/-- `nx.DiGraph.neighbors`: direct successors of `v` in insertion order. -/
def DiGraph.successors {α : Type} [DecidableEq α] (g : DiGraph α) (v : α) : List α :=
  (g.edgesList.filter (fun e => e.1 = v)).map (fun e => e.2)

/-- `nx.DiGraph.predecessors`: direct predecessors of `v` in insertion order. -/
def DiGraph.predecessors {α : Type} [DecidableEq α] (g : DiGraph α) (v : α) : List α :=
  (g.edgesList.filter (fun e => e.2 = v)).map (fun e => e.1)

/-- Key membership in an association list (Python `key in dict`). -/
def assoc_contains {κ β : Type} [DecidableEq κ] (k : κ) (l : List (κ × β)) : Bool :=
  l.any (fun p => p.1 = k)

/-- Python `dict[k] = v`: overwrite in place when the key is present
(keeping its position), else append. -/
def assoc_set {κ β : Type} [DecidableEq κ] (k : κ) (v : β) : List (κ × β) → List (κ × β)
  | [] => [(k, v)]
  | (k', v') :: rest => if k' = k then (k, v) :: rest else (k', v') :: assoc_set k v rest

/-- Python `del dict[k]` (keys are unique, so a filter is exact). -/
def assoc_erase {κ β : Type} [DecidableEq κ] (k : κ) (l : List (κ × β)) : List (κ × β) :=
  l.filter (fun p => ¬ p.1 = k)

/-- `NetworkGraph` (`models/graph.py`): the nx digraph plus the two
record dicts and the mutable threshold dict. -/
structure NetworkGraph (α : Type) where
  graph : DiGraph α
  nodes : List (α × NetworkNode α)
  edges : List ((α × α) × NetworkEdge α)
  attack_thresholds : Thresholds
deriving Repr

/-- The freshly constructed store (`NetworkGraph.__init__`). -/
def NetworkGraph.empty (α : Type) : NetworkGraph α :=
  { graph := { nodesList := [], edgesList := [] }
    nodes := []
    edges := []
    attack_thresholds := default_thresholds }

/-- `NetworkGraph.add_node`: upsert the record and the nx node. -/
def NetworkGraph.add_node {α : Type} [DecidableEq α] (g : NetworkGraph α)
    (node : NetworkNode α) : NetworkGraph α :=
  { g with nodes := assoc_set node.id node g.nodes
           graph := g.graph.add_node node.id }

/-- `NetworkGraph.add_edge`: upsert the record and the nx edge (which also
inserts both endpoints as nx nodes when absent). -/
def NetworkGraph.add_edge {α : Type} [DecidableEq α] (g : NetworkGraph α)
    (edge : NetworkEdge α) : NetworkGraph α :=
  { g with edges := assoc_set (edge.source, edge.target) edge g.edges
           graph := g.graph.add_edge edge.source edge.target }

/-- `NetworkGraph.remove_node`: guarded by membership in the node-record
dict; deletes the record and the nx node (with its incident edges).  As in
the source, the edge-record dict `edges` is left untouched. -/
def NetworkGraph.remove_node {α : Type} [DecidableEq α] (g : NetworkGraph α)
    (node_id : α) : NetworkGraph α :=
  if assoc_contains node_id g.nodes then
    { g with nodes := assoc_erase node_id g.nodes
             graph := g.graph.remove_node node_id }
  else g

/-- `NetworkGraph.remove_edge`: guarded by membership in the edge-record
dict; deletes the record and the nx edge. -/
def NetworkGraph.remove_edge {α : Type} [DecidableEq α] (g : NetworkGraph α)
    (source target : α) : NetworkGraph α :=
  if assoc_contains (source, target) g.edges then
    { g with edges := assoc_erase (source, target) g.edges
             graph := g.graph.remove_edge source target }
  else g

/-- `NetworkGraph.get_indegree`. -/
def NetworkGraph.get_indegree {α : Type} [DecidableEq α] (g : NetworkGraph α) (node_id : α) : ℕ :=
  g.graph.in_degree node_id

/-- `NetworkGraph.get_outdegree`. -/
def NetworkGraph.get_outdegree {α : Type} [DecidableEq α] (g : NetworkGraph α) (node_id : α) : ℕ :=
  g.graph.out_degree node_id

/-- `NetworkGraph.get_neighbors`. -/
def NetworkGraph.get_neighbors {α : Type} [DecidableEq α] (g : NetworkGraph α) (node_id : α) : List α :=
  g.graph.successors node_id

/-- `NetworkGraph.get_predecessors`. -/
def NetworkGraph.get_predecessors {α : Type} [DecidableEq α] (g : NetworkGraph α) (node_id : α) : List α :=
  g.graph.predecessors node_id

/-- All ways of inserting `x` at some position of the list. -/
def insert_everywhere {α : Type} (x : α) : List α → List (List α)
  | [] => [[x]]
  | y :: ys => (x :: y :: ys) :: (insert_everywhere x ys).map (fun zs => y :: zs)

/-- All permutations of a list (structurally recursive so that concrete
instances evaluate). -/
def perms {α : Type} : List α → List (List α)
  | [] => [[]]
  | x :: xs => (perms xs).flatMap (insert_everywhere x)

/-- Boolean test that consecutive elements of the list are joined by
edges of `g` (executable form of `List.Chain'`). -/
def chain_edges {α : Type} [DecidableEq α] (g : DiGraph α) : List α → Bool
  | [] => true
  | [_] => true
  | a :: b :: rest => decide ((a, b) ∈ g.edgesList) && chain_edges g (b :: rest)

/-- Elementary-cycle test in canonical rotation: consecutive edges, a
closing edge from the last node back to the head, no repeated node, and
the head is the least node of the cycle. -/
def is_simple_cycle {α : Type} [LinearOrder α] (g : DiGraph α) : List α → Bool
  | [] => false
  | h :: rest =>
    chain_edges g (h :: rest) &&
    decide (((h :: rest).getLast (List.cons_ne_nil h rest), h) ∈ g.edgesList) &&
    decide ((h :: rest).Nodup) &&
    (h :: rest).all (fun x => h ≤ x)

/-- Modelled from the spec: `nx.simple_cycles` is external library code;
the spec's Graph Store contract says `enumerateSimpleCycles` "produces
every elementary directed cycle β€” no node or edge repeats within one cycle
except the shared start/end; self-loops count as length-1 cycles", each
cycle exactly once.  The enumeration lists every elementary cycle in its
canonical rotation (see `is_simple_cycle`); the rotation choice and the
enumeration order are embedding artifacts no claim depends on. -/
def simple_cycles {α : Type} [LinearOrder α] (g : DiGraph α) : List (List α) :=
  (g.nodesList.sublists.flatMap perms).filter (is_simple_cycle g)

/-- One dequeue step body of `_bfs_reachable`'s loop: scan the successors
of the dequeued node in order, appending each unvisited one to the visited
list and to the list of newly enqueued nodes. -/
def bfs_visit {α : Type} [DecidableEq α] (successors : List α)
    (visited : List α) : List α × List α :=
  successors.foldl
    (fun acc nb => if nb ∈ acc.1 then acc else (acc.1 ++ [nb], acc.2 ++ [nb]))
    (visited, ([] : List α))

/-- The `while queue:` loop of `_bfs_reachable`, with explicit fuel.  The
Python loop always terminates because every enqueued node is freshly
visited; `bfs_reachable` supplies fuel exceeding every possible number of
dequeues, so the fuel-out branch is never the value actually observed. -/
def bfs_loop {α : Type} [DecidableEq α] (g : DiGraph α) :
    ℕ → List α → List α → List α
  | 0, _, visited => visited
  | _ + 1, [], visited => visited
  | fuel + 1, current :: rest, visited =>
    let step := bfs_visit (g.successors current) visited
    bfs_loop g fuel (rest ++ step.2) step.1

/-- `AttackDetector._bfs_reachable`: BFS from `start_node` over outgoing
edges; the start node is marked visited before expansion and the visited
collection is returned.  The source returns `list(visited)` for a Python
set, whose order is unspecified; we return discovery order, and no claim
depends on the order of this list, only on its members and size. -/
def bfs_reachable {α : Type} [DecidableEq α] (g : DiGraph α) (start_node : α) : List α :=
  bfs_loop g (g.nodesList.length + g.edgesList.length + 1) [start_node] [start_node]

/-- `AttackDetector.detect_ddos_attack`: one alert per node whose indegree
strictly exceeds the threshold (`none` means: read the stored
`ddos_indegree`). -/
def detect_ddos_attack {α : Type} [DecidableEq α] (g : NetworkGraph α)
    (threshold : Option ℤ) : List (AttackAlert α) :=
  let t := threshold.getD g.attack_thresholds.ddos_indegree
  g.graph.nodesList.filterMap (fun node_id =>
    let indegree := g.get_indegree node_id
    if (indegree : ℤ) > t then
      some { attack_type := AttackType.DDOS
             source_nodes := g.get_predecessors node_id
             target_nodes := [node_id]
             confidence := min 1 ((indegree : ℚ) / ((t : ℚ) * 2))
             timestamp := 0
             severity := if (indegree : ℤ) > t * 2 then "high" else "medium" }
    else none)

/-- `AttackDetector.detect_botnet_attack`: one alert per simple cycle of
at least 3 nodes, no cross-cycle deduplication. -/
def detect_botnet_attack {α : Type} [LinearOrder α] (g : NetworkGraph α) :
    List (AttackAlert α) :=
  (simple_cycles g.graph).filterMap (fun cycle =>
    if 3 ≤ cycle.length then
      some { attack_type := AttackType.BOTNET
             source_nodes := cycle
             target_nodes := cycle
             confidence := min 1 ((cycle.length : ℚ) / 10)
             timestamp := 0
             severity := if 5 ≤ cycle.length then "high" else "medium" }
    else none)

/-- `AttackDetector.detect_port_scan_attack`: one alert per node whose
outdegree strictly exceeds the threshold; severity is always medium. -/
def detect_port_scan_attack {α : Type} [DecidableEq α] (g : NetworkGraph α)
    (threshold : Option ℤ) : List (AttackAlert α) :=
  let t := threshold.getD g.attack_thresholds.port_scan_outdegree
  g.graph.nodesList.filterMap (fun node_id =>
    let outdegree := g.get_outdegree node_id
    if (outdegree : ℤ) > t then
      some { attack_type := AttackType.PORT_SCAN
             source_nodes := [node_id]
             target_nodes := g.get_neighbors node_id
             confidence := min 1 ((outdegree : ℚ) / ((t : ℚ) * 2))
             timestamp := 0
             severity := "medium" }
    else none)

/-- `AttackDetector.detect_worm_propagation`: candidates are the supplied
start node, or else every node of outdegree above the fixed fan-out floor
5; each candidate present in the graph is BFS-expanded, and an alert is
emitted when the visited count strictly exceeds the threshold. -/
def detect_worm_propagation {α : Type} [DecidableEq α] (g : NetworkGraph α)
    (start_node : Option α) (threshold : Option ℤ) : List (AttackAlert α) :=
  let t := threshold.getD g.attack_thresholds.worm_reachability
  let candidates := match start_node with
    | some s => [s]
    | none => g.graph.nodesList.filter (fun node => 5 < g.get_outdegree node)
  candidates.filterMap (fun candidate =>
    if candidate ∈ g.graph.nodesList then
      let reachable_nodes := bfs_reachable g.graph candidate
      if (reachable_nodes.length : ℤ) > t then
        some { attack_type := AttackType.WORM
               source_nodes := [candidate]
               target_nodes := reachable_nodes
               confidence := min 1 ((reachable_nodes.length : ℚ) / ((t : ℚ) * 2))
               timestamp := 0
               severity := if (reachable_nodes.length : ℤ) > t * 2 then "high" else "medium" }
      else none
    else none)

/-- `AttackDetector.detect_c2_attack`: one alert per node with indegree at
least `c2_indegree_min` and outdegree at most `c2_outdegree_max`. -/
def detect_c2_attack {α : Type} [DecidableEq α] (g : NetworkGraph α) : List (AttackAlert α) :=
  let min_indegree := g.attack_thresholds.c2_indegree_min
  let max_outdegree := g.attack_thresholds.c2_outdegree_max
  g.graph.nodesList.filterMap (fun node_id =>
    let indegree := g.get_indegree node_id
    let outdegree := g.get_outdegree node_id
    if (indegree : ℤ) ≥ min_indegree ∧ (outdegree : ℤ) ≤ max_outdegree then
      some { attack_type := AttackType.C2
             source_nodes := g.get_predecessors node_id
             target_nodes := [node_id]
             confidence := min 1 ((indegree : ℚ) / ((min_indegree : ℚ) * 2))
             timestamp := 0
             severity := if (indegree : ℤ) > min_indegree * 3 then "high" else "medium" }
    else none)

/-- The `severity_order` dict of `detect_all_attacks`; every alert the
engine creates carries severity high or medium, so the fall-through value
is never reached on generated alerts. -/
def severity_order (s : String) : ℕ :=
  if s = "high" then 3 else if s = "medium" then 2 else if s = "low" then 1 else 0

/-- Strict descending comparison on the Python sort key
`(severity_order[x.severity], x.confidence)`. -/
def alert_key_lt {α : Type} (a b : AttackAlert α) : Prop :=
  severity_order a.severity < severity_order b.severity ∨
    (severity_order a.severity = severity_order b.severity ∧ a.confidence < b.confidence)

instance {α : Type} (a b : AttackAlert α) : Decidable (alert_key_lt a b) := by
  unfold alert_key_lt; infer_instance

/-- Stable insertion into a descending-sorted list: the new element goes
after every element whose key is strictly greater, and before equal keys
coming later (preserving original order among key-ties). -/
def sort_insert {α : Type} (x : AttackAlert α) :
    List (AttackAlert α) → List (AttackAlert α)
  | [] => [x]
  | y :: rest => if alert_key_lt x y then y :: sort_insert x rest else x :: y :: rest

/-- Python `list.sort(key=..., reverse=True)` is a stable descending sort;
any stable descending sort computes the same list, and this insertion sort
is proved sorted, a permutation, and stable below. -/
def sort_alerts {α : Type} : List (AttackAlert α) → List (AttackAlert α)
  | [] => []
  | x :: rest => sort_insert x (sort_alerts rest)

/-- `AttackDetector.detect_all_attacks`: run the five detectors in order,
sort the concatenation by (severity rank, confidence) descending, append
the sorted batch to the detection history, and return it.  The history is
threaded explicitly: the result is `(returned alerts, new history)`. -/
def detect_all_attacks {α : Type} [LinearOrder α] (g : NetworkGraph α)
    (history : List (AttackAlert α)) : List (AttackAlert α) × List (AttackAlert α) :=
  let all_alerts :=
    detect_ddos_attack g none ++ detect_botnet_attack g ++
      detect_port_scan_attack g none ++ detect_worm_propagation g none none ++
      detect_c2_attack g
  let sorted := sort_alerts all_alerts
  (sorted, history ++ sorted)

/-- The statistics record of `get_attack_statistics`; the two count dicts
are insertion-ordered association lists, as Python `dict(defaultdict)`. -/
structure AttackStatistics where
  total_attacks : ℕ
  attack_types : List (String × ℕ)
  severity_distribution : List (String × ℕ)
  high_confidence_attacks : ℕ
deriving DecidableEq, Repr

/-- `defaultdict(int)` increment: bump the key's count in place, appending
the key with count 1 on first sight. -/
def bump_count (k : String) : List (String × ℕ) → List (String × ℕ)
  | [] => [(k, 1)]
  | (k', n) :: rest => if k' = k then (k', n + 1) :: rest else (k', n) :: bump_count k rest

/-- The counting loop of `get_attack_statistics` for one key projection. -/
def count_by {α : Type} (key : AttackAlert α → String) (history : List (AttackAlert α)) :
    List (String × ℕ) :=
  history.foldl (fun acc a => bump_count (key a) acc) []

/-- `AttackDetector.get_attack_statistics`: `none` models the explicit
empty dict returned on an empty history. -/
def get_attack_statistics {α : Type} (history : List (AttackAlert α)) :
    Option AttackStatistics :=
  if history.isEmpty then none
  else some
    { total_attacks := history.length
      attack_types := count_by (fun a => a.attack_type.value) history
      severity_distribution := count_by (fun a => a.severity) history
      high_confidence_attacks := history.countP (fun a => decide ((4 / 5 : ℚ) < a.confidence)) }

/-- Test fixture: the directed path on nodes `0, …, n` with edges
`i β†’ i+1`. -/
def path_digraph (n : ℕ) : DiGraph ℕ :=
  { nodesList := List.range (n + 1)
    edgesList := (List.range n).map (fun i => (i, i + 1)) }

/-- Test fixture: the directed cycle on nodes `0, …, k-1` with edges
`i β†’ (i+1) % k`. -/
def cycle_digraph (k : ℕ) : DiGraph ℕ :=
  { nodesList := List.range k
    edgesList := (List.range k).map (fun i => (i, (i + 1) % k)) }

/-- Test fixture: the star with leaves `0, …, m-1` each pointing at the
hub `m`, which has no outgoing edges. -/
def star_digraph (m : ℕ) : DiGraph ℕ :=
  { nodesList := List.range m ++ [m]
    edgesList := (List.range m).map (fun i => (i, m)) }

/-- Wrap a digraph into a detector-visible store state (the two record
dicts are not read by any detector). -/
def mk_state {α : Type} (g : DiGraph α) (t : Thresholds) : NetworkGraph α :=
  { graph := g, nodes := [], edges := [], attack_thresholds := t }

/-! ## Generic helper lemmas -/

theorem filterMap_ite {α β : Type} (p : α → Prop) [DecidablePred p] (h : α → β) (l : List α) :
    l.filterMap (fun v => if p v then some (h v) else none) =
      (l.filter (fun v => decide (p v))).map h := by
  induction l with
  | nil => rfl
  | cons x xs ih =>
    by_cases hx : p x <;>
      simp [List.filterMap_cons, List.filter_cons, hx, ih]

theorem countP_beq_and_of_nodup {α : Type} [DecidableEq α] (l : List α) (hl : l.Nodup)
    (v : α) (q : α → Bool) :
    l.countP (fun x => decide (x = v) && q x) = if v ∈ l ∧ q v = true then 1 else 0 := by
  induction l with
  | nil => simp
  | cons x xs ih =>
    rcases List.nodup_cons.mp hl with ⟨hx, hxs⟩
    rw [List.countP_cons, ih hxs]
    by_cases hxv : x = v
    · subst hxv
      by_cases hq : q x = true <;> simp [hx, hq]
    · by_cases hm : v ∈ xs <;> by_cases hq : q v = true <;>
        simp [hxv, hm, hq, Ne.symm hxv]

/-! ## C4: DDoS detection -/

/-- Filter-map representation of `detect_ddos_attack` at an explicit
threshold. -/
theorem detect_ddos_attack_eq {α : Type} [DecidableEq α] (g : NetworkGraph α) (t : ℤ) :
    detect_ddos_attack g (some t) =
      (g.graph.nodesList.filter (fun v => decide (t < (g.get_indegree v : ℤ)))).map
        (fun v =>
          { attack_type := AttackType.DDOS
            source_nodes := g.get_predecessors v
            target_nodes := [v]
            confidence := min 1 ((g.get_indegree v : ℚ) / ((t : ℚ) * 2))
            timestamp := 0
            severity := if (g.get_indegree v : ℤ) > t * 2 then "high" else "medium" }) := by
  unfold detect_ddos_attack
  simp only [Option.getD_some]
  exact filterMap_ite (fun v => t < (g.get_indegree v : ℤ)) _ _

/-- Passing no threshold reads the stored `ddos_indegree`. -/
theorem detect_ddos_attack_none {α : Type} [DecidableEq α] (g : NetworkGraph α) :
    detect_ddos_attack g none =
      detect_ddos_attack g (some g.attack_thresholds.ddos_indegree) := rfl

/-- Filter-map representation of `detect_port_scan_attack` at an explicit
threshold. -/
theorem detect_port_scan_attack_eq {α : Type} [DecidableEq α] (g : NetworkGraph α) (t : ℤ) :
    detect_port_scan_attack g (some t) =
      (g.graph.nodesList.filter (fun v => decide (t < (g.get_outdegree v : ℤ)))).map
        (fun v =>
          { attack_type := AttackType.PORT_SCAN
            source_nodes := [v]
            target_nodes := g.get_neighbors v
            confidence := min 1 ((g.get_outdegree v : ℚ) / ((t : ℚ) * 2))
            timestamp := 0
            severity := "medium" }) := by
  unfold detect_port_scan_attack
  simp only [Option.getD_some]
  exact filterMap_ite (fun v => t < (g.get_outdegree v : ℤ)) _ _

/-- Passing no threshold reads the stored `port_scan_outdegree`. -/
theorem detect_port_scan_attack_none {α : Type} [DecidableEq α] (g : NetworkGraph α) :
    detect_port_scan_attack g none =
      detect_port_scan_attack g (some g.attack_thresholds.port_scan_outdegree) := rfl

/-- Example store for the C4 witness: two edges into node 0. -/
def ddos_example : NetworkGraph ℕ :=
  mk_state { nodesList := [0, 1, 2], edgesList := [(1, 0), (2, 0)] } default_thresholds

/-- C4: for every graph and positive threshold `t`, DDoS detection emits
exactly one alert per node with indegree strictly greater than `t`
(sources = the node's full predecessor set, target = that node,
confidence = min(1, indegree/(2t)), severity high iff indegree > 2t), and
the empty list when no node exceeds `t` (including on the empty graph,
whose node list is empty). -/
theorem claim_C4_ddos {α : Type} [DecidableEq α] (g : NetworkGraph α) (t : ℤ)
    (ht : 1 ≤ t) (hnd : g.graph.nodesList.Nodup) :
    detect_ddos_attack g (some t) =
      (g.graph.nodesList.filter (fun v => decide (t < (g.get_indegree v : ℤ)))).map
        (fun v =>
          { attack_type := AttackType.DDOS
            source_nodes := g.get_predecessors v
            target_nodes := [v]
            confidence := min 1 ((g.get_indegree v : ℚ) / ((t : ℚ) * 2))
            timestamp := 0
            severity := if (g.get_indegree v : ℤ) > t * 2 then "high" else "medium" }) ∧
    (∀ v : α,
      (detect_ddos_attack g (some t)).countP (fun a => decide (a.target_nodes = [v])) =
        if v ∈ g.graph.nodesList ∧ t < (g.get_indegree v : ℤ) then 1 else 0) ∧
    ((∀ v ∈ g.graph.nodesList, (g.get_indegree v : ℤ) ≤ t) →
      detect_ddos_attack g (some t) = []) := by
  have hmain : detect_ddos_attack g (some t) =
      (g.graph.nodesList.filter (fun v => decide (t < (g.get_indegree v : ℤ)))).map
        (fun v =>
          { attack_type := AttackType.DDOS
            source_nodes := g.get_predecessors v
            target_nodes := [v]
            confidence := min 1 ((g.get_indegree v : ℚ) / ((t : ℚ) * 2))
            timestamp := 0
            severity := if (g.get_indegree v : ℤ) > t * 2 then "high" else "medium" }) :=
    detect_ddos_attack_eq g t
  refine ⟨hmain, ?_, ?_⟩
  · intro v
    have hstep : List.countP
        (fun x => decide (x = v) && decide (t < (g.get_indegree x : ℤ)))
        g.graph.nodesList =
        if v ∈ g.graph.nodesList ∧ t < (g.get_indegree v : ℤ) then 1 else 0 := by
      rw [countP_beq_and_of_nodup g.graph.nodesList hnd v
        (fun x => decide (t < (g.get_indegree x : ℤ)))]
      simp
    rw [hmain, List.countP_map, List.countP_filter]
    refine Eq.trans (List.countP_congr ?_) hstep
    intro x _
    simp [Function.comp]
  · intro hall
    rw [hmain, List.map_eq_nil_iff, List.filter_eq_nil_iff]
    intro v hv
    simpa using not_lt.mpr (hall v hv)

/-- Witness for C4 at a concrete store: node 0 has indegree 2 > 1 and gets
exactly one alert. -/
theorem claim_C4_ddos_witness :
    (detect_ddos_attack ddos_example (some 1)).countP
        (fun a => decide (a.target_nodes = [0])) = 1 := by
  have h := (claim_C4_ddos ddos_example 1 (by decide) (by decide)).2.1 0
  rw [h]
  decide

/-! ## C7: port-scan detection -/

/-- Example store for the C7 witness: two edges out of node 0. -/
def port_scan_example : NetworkGraph ℕ :=
  mk_state { nodesList := [0, 1, 2], edgesList := [(0, 1), (0, 2)] } default_thresholds

/-- C7: for every graph and positive threshold `t`, port-scan detection
emits exactly one alert per node with outdegree strictly greater than `t`
(source = that node, targets = its full successor set, confidence =
min(1, outdegree/(2t))), and every emitted alert has severity medium —
this detector never emits a high-severity alert. -/
theorem claim_C7_port_scan {α : Type} [DecidableEq α] (g : NetworkGraph α) (t : ℤ)
    (ht : 1 ≤ t) (hnd : g.graph.nodesList.Nodup) :
    detect_port_scan_attack g (some t) =
      (g.graph.nodesList.filter (fun v => decide (t < (g.get_outdegree v : ℤ)))).map
        (fun v =>
          { attack_type := AttackType.PORT_SCAN
            source_nodes := [v]
            target_nodes := g.get_neighbors v
            confidence := min 1 ((g.get_outdegree v : ℚ) / ((t : ℚ) * 2))
            timestamp := 0
            severity := "medium" }) ∧
    (∀ v : α,
      (detect_port_scan_attack g (some t)).countP (fun a => decide (a.source_nodes = [v])) =
        if v ∈ g.graph.nodesList ∧ t < (g.get_outdegree v : ℤ) then 1 else 0) ∧
    (∀ a ∈ detect_port_scan_attack g (some t), a.severity = "medium") := by
  have hmain : detect_port_scan_attack g (some t) =
      (g.graph.nodesList.filter (fun v => decide (t < (g.get_outdegree v : ℤ)))).map
        (fun v =>
          { attack_type := AttackType.PORT_SCAN
            source_nodes := [v]
            target_nodes := g.get_neighbors v
            confidence := min 1 ((g.get_outdegree v : ℚ) / ((t : ℚ) * 2))
            timestamp := 0
            severity := "medium" }) :=
    detect_port_scan_attack_eq g t
  refine ⟨hmain, ?_, ?_⟩
  · intro v
    have hstep : List.countP
        (fun x => decide (x = v) && decide (t < (g.get_outdegree x : ℤ)))
        g.graph.nodesList =
        if v ∈ g.graph.nodesList ∧ t < (g.get_outdegree v : ℤ) then 1 else 0 := by
      rw [countP_beq_and_of_nodup g.graph.nodesList hnd v
        (fun x => decide (t < (g.get_outdegree x : ℤ)))]
      simp
    rw [hmain, List.countP_map, List.countP_filter]
    refine Eq.trans (List.countP_congr ?_) hstep
    intro x _
    simp [Function.comp]
  · intro a ha
    rw [hmain] at ha
    rcases List.mem_map.mp ha with ⟨v, _, rfl⟩
    rfl

/-- Witness for C7 at a concrete store: node 0 has outdegree 2 > 1, one
medium alert. -/
theorem claim_C7_port_scan_witness :
    (detect_port_scan_attack port_scan_example (some 1)).countP
        (fun a => decide (a.source_nodes = [0])) = 1 := by
  have h := (claim_C7_port_scan port_scan_example 1 (by decide) (by decide)).2.1 0
  rw [h]
  decide

/-! ## C6: C2 detection on a star graph -/

/-- Filter-map representation of `detect_c2_attack`. -/
theorem detect_c2_attack_eq {α : Type} [DecidableEq α] (g : NetworkGraph α) :
    detect_c2_attack g =
      (g.graph.nodesList.filter (fun v =>
          decide ((g.get_indegree v : ℤ) ≥ g.attack_thresholds.c2_indegree_min ∧
            (g.get_outdegree v : ℤ) ≤ g.attack_thresholds.c2_outdegree_max))).map
        (fun v =>
          { attack_type := AttackType.C2
            source_nodes := g.get_predecessors v
            target_nodes := [v]
            confidence := min 1 ((g.get_indegree v : ℚ) /
              ((g.attack_thresholds.c2_indegree_min : ℚ) * 2))
            timestamp := 0
            severity := if (g.get_indegree v : ℤ) > g.attack_thresholds.c2_indegree_min * 3
              then "high" else "medium" }) := by
  unfold detect_c2_attack
  simp only
  exact filterMap_ite
    (fun v => (g.get_indegree v : ℤ) ≥ g.attack_thresholds.c2_indegree_min ∧
      (g.get_outdegree v : ℤ) ≤ g.attack_thresholds.c2_outdegree_max) _ _

theorem star_in_degree_leaf (m v : ℕ) (h : v ≠ m) : (star_digraph m).in_degree v = 0 := by
  unfold star_digraph DiGraph.in_degree
  rw [List.filter_map]
  have : List.filter ((fun e : ℕ × ℕ => decide (e.2 = v)) ∘ fun i => (i, m)) (List.range m) = [] := by
    rw [List.filter_eq_nil_iff]
    intro i _
    simpa using fun hc => h hc.symm
  rw [this]
  rfl

theorem star_in_degree_hub (m : ℕ) : (star_digraph m).in_degree m = m := by
  unfold star_digraph DiGraph.in_degree
  rw [List.filter_map]
  have : List.filter ((fun e : ℕ × ℕ => decide (e.2 = m)) ∘ fun i => (i, m)) (List.range m) =
      List.range m := by
    rw [List.filter_eq_self]
    intro i _
    simp
  rw [this]
  simp

theorem star_out_degree_hub (m : ℕ) : (star_digraph m).out_degree m = 0 := by
  unfold star_digraph DiGraph.out_degree
  rw [List.filter_map]
  have : List.filter ((fun e : ℕ × ℕ => decide (e.1 = m)) ∘ fun i => (i, m)) (List.range m) = [] := by
    rw [List.filter_eq_nil_iff]
    intro i hi
    have := List.mem_range.mp hi
    simp
    omega
  rw [this]
  rfl

theorem star_predecessors_hub (m : ℕ) : (star_digraph m).predecessors m = List.range m := by
  unfold star_digraph DiGraph.predecessors
  rw [List.filter_map]
  have : List.filter ((fun e : ℕ × ℕ => decide (e.2 = m)) ∘ fun i => (i, m)) (List.range m) =
      List.range m := by
    rw [List.filter_eq_self]
    intro i _
    simp
  rw [this]
  simp [Function.comp_def]

/-- C6: for every star of `m` leaves each with one edge into a hub of zero
outdegree, with `m` at least the (positive) `c2_indegree_min` and the
hub's outdegree (0) at most `c2_outdegree_max`, C2 detection yields
exactly one alert: sources all `m` leaves, target the hub, confidence
min(1, m/(2Β·c2_indegree_min)), severity high iff m > 3Β·c2_indegree_min. -/
theorem claim_C6_c2_star (m : ℕ) (ths : Thresholds)
    (hmin1 : 1 ≤ ths.c2_indegree_min)
    (hminm : ths.c2_indegree_min ≤ (m : ℤ))
    (hmax : 0 ≤ ths.c2_outdegree_max) :
    detect_c2_attack (mk_state (star_digraph m) ths) =
      [{ attack_type := AttackType.C2
         source_nodes := List.range m
         target_nodes := [m]
         confidence := min 1 ((m : ℚ) / ((ths.c2_indegree_min : ℚ) * 2))
         timestamp := 0
         severity := if (m : ℤ) > ths.c2_indegree_min * 3 then "high" else "medium" }] := by
  rw [detect_c2_attack_eq]
  have hgr : (mk_state (star_digraph m) ths).graph = star_digraph m := rfl
  have hth : (mk_state (star_digraph m) ths).attack_thresholds = ths := rfl
  have hind : ∀ v, (mk_state (star_digraph m) ths).get_indegree v = (star_digraph m).in_degree v :=
    fun _ => rfl
  have houtd : ∀ v, (mk_state (star_digraph m) ths).get_outdegree v = (star_digraph m).out_degree v :=
    fun _ => rfl
  have hpred : ∀ v, (mk_state (star_digraph m) ths).get_predecessors v = (star_digraph m).predecessors v :=
    fun _ => rfl
  have hnodes : (star_digraph m).nodesList = List.range m ++ [m] := rfl
  rw [hgr, hth, hnodes, List.filter_append]
  have h1 : List.filter (fun v =>
      decide (((mk_state (star_digraph m) ths).get_indegree v : ℤ) ≥ ths.c2_indegree_min ∧
        ((mk_state (star_digraph m) ths).get_outdegree v : ℤ) ≤ ths.c2_outdegree_max))
      (List.range m) = [] := by
    rw [List.filter_eq_nil_iff]
    intro i hi
    have hne : i ≠ m := by
      have := List.mem_range.mp hi
      omega
    rw [hind i, star_in_degree_leaf m i hne]
    simp only [decide_eq_true_eq, not_and]
    intro hcon
    omega
  have h2 : List.filter (fun v =>
      decide (((mk_state (star_digraph m) ths).get_indegree v : ℤ) ≥ ths.c2_indegree_min ∧
        ((mk_state (star_digraph m) ths).get_outdegree v : ℤ) ≤ ths.c2_outdegree_max))
      [m] = [m] := by
    rw [List.filter_eq_self]
    intro v hv
    rw [List.mem_singleton.mp hv]
    rw [hind m, houtd m, star_in_degree_hub, star_out_degree_hub]
    simp only [decide_eq_true_eq]
    exact ⟨hminm, hmax⟩
  rw [h1, h2]
  simp only [List.nil_append, List.map_cons, List.map_nil]
  rw [hind m, hpred m, star_in_degree_hub, star_predecessors_hub]

/-- Witness for C6: a star with 7 leaves, `c2_indegree_min = 2`,
`c2_outdegree_max = 0`: one high-severity alert over all 7 leaves. -/
theorem claim_C6_c2_star_witness :
    detect_c2_attack (mk_state (star_digraph 7)
        { ddos_indegree := 50, port_scan_outdegree := 30, worm_reachability := 100,
          c2_indegree_min := 2, c2_outdegree_max := 0 }) =
      [{ attack_type := AttackType.C2
         source_nodes := [0, 1, 2, 3, 4, 5, 6]
         target_nodes := [7]
         confidence := 1
         timestamp := 0
         severity := "high" }] := by
  have h := claim_C6_c2_star 7
    { ddos_indegree := 50, port_scan_outdegree := 30, worm_reachability := 100,
      c2_indegree_min := 2, c2_outdegree_max := 0 }
    (by decide) (by decide) (by decide)
  rw [h]
  norm_num
  decide

/-! ## C10: edge-created nodes survive removal -/

theorem DiGraph.add_node_edgesList {α : Type} [DecidableEq α] (g : DiGraph α) (v : α) :
    (g.add_node v).edgesList = g.edgesList := by
  unfold DiGraph.add_node
  split <;> rfl

theorem DiGraph.mem_add_node_self {α : Type} [DecidableEq α] (g : DiGraph α) (v : α) :
    v ∈ (g.add_node v).nodesList := by
  unfold DiGraph.add_node
  split
  · assumption
  · exact List.mem_append_right _ (List.mem_singleton_self v)

theorem DiGraph.mem_add_node_of_mem {α : Type} [DecidableEq α] (g : DiGraph α) (u : α) {v : α}
    (h : v ∈ g.nodesList) : v ∈ (g.add_node u).nodesList := by
  unfold DiGraph.add_node
  split
  · exact h
  · exact List.mem_append_left _ h

theorem DiGraph.add_edge_nodesList {α : Type} [DecidableEq α] (g : DiGraph α) (u v : α) :
    (g.add_edge u v).nodesList = ((g.add_node u).add_node v).nodesList := by
  unfold DiGraph.add_edge
  dsimp only
  split <;> rfl

theorem DiGraph.mem_add_edge_edgesList {α : Type} [DecidableEq α] (g : DiGraph α) (u v : α) :
    (u, v) ∈ (g.add_edge u v).edgesList := by
  unfold DiGraph.add_edge
  dsimp only
  split
  · next h => exact h
  · exact List.mem_append_right _ (List.mem_singleton_self _)

/-- C10: adding an edge whose endpoints were never passed to `add_node`
makes both endpoints members of the detector-visible node list (the list
every detector iterates) and the new edge is counted by the degree
queries, yet `remove_node` on either endpoint is a silent no-op leaving
the whole store unchanged, because removal is guarded by membership in the
node-record dict, which `add_edge` never touches. -/
theorem claim_C10_ghost_nodes {α : Type} [DecidableEq α] (g : NetworkGraph α)
    (edge : NetworkEdge α)
    (hsrc : assoc_contains edge.source g.nodes = false)
    (htgt : assoc_contains edge.target g.nodes = false) :
    edge.source ∈ (g.add_edge edge).graph.nodesList ∧
    edge.target ∈ (g.add_edge edge).graph.nodesList ∧
    1 ≤ (g.add_edge edge).get_indegree edge.target ∧
    1 ≤ (g.add_edge edge).get_outdegree edge.source ∧
    (g.add_edge edge).remove_node edge.source = g.add_edge edge ∧
    (g.add_edge edge).remove_node edge.target = g.add_edge edge := by
  have hgraph : (g.add_edge edge).graph = g.graph.add_edge edge.source edge.target := rfl
  have hmem : (edge.source, edge.target) ∈ (g.add_edge edge).graph.edgesList := by
    rw [hgraph]
    exact DiGraph.mem_add_edge_edgesList g.graph edge.source edge.target
  have hnodesrec : (g.add_edge edge).nodes = g.nodes := rfl
  refine ⟨?_, ?_, ?_, ?_, ?_, ?_⟩
  · rw [hgraph, DiGraph.add_edge_nodesList]
    exact DiGraph.mem_add_node_of_mem _ _ (DiGraph.mem_add_node_self g.graph edge.source)
  · rw [hgraph, DiGraph.add_edge_nodesList]
    exact DiGraph.mem_add_node_self _ edge.target
  · unfold NetworkGraph.get_indegree DiGraph.in_degree
    have : (edge.source, edge.target) ∈
        (g.add_edge edge).graph.edgesList.filter (fun e => decide (e.2 = edge.target)) :=
      List.mem_filter.mpr ⟨hmem, by simp⟩
    exact Nat.succ_le_of_lt (List.length_pos.mpr (List.ne_nil_of_mem this))
  · unfold NetworkGraph.get_outdegree DiGraph.out_degree
    have : (edge.source, edge.target) ∈
        (g.add_edge edge).graph.edgesList.filter (fun e => decide (e.1 = edge.source)) :=
      List.mem_filter.mpr ⟨hmem, by simp⟩
    exact Nat.succ_le_of_lt (List.length_pos.mpr (List.ne_nil_of_mem this))
  · unfold NetworkGraph.remove_node
    rw [hnodesrec, hsrc]
    simp
  · unfold NetworkGraph.remove_node
    rw [hnodesrec, htgt]
    simp

/-- Witness for C10 on the empty store with the edge 0 β†’ 1. -/
theorem claim_C10_ghost_nodes_witness :
    1 ∈ ((NetworkGraph.empty ℕ).add_edge { source := 0, target := 1 }).graph.nodesList ∧
    ((NetworkGraph.empty ℕ).add_edge { source := 0, target := 1 }).remove_node 1 =
      (NetworkGraph.empty ℕ).add_edge { source := 0, target := 1 } := by
  have h := claim_C10_ghost_nodes (NetworkGraph.empty ℕ) { source := 0, target := 1 }
    (by decide) (by decide)
  exact ⟨h.2.1, h.2.2.2.2.2⟩

/-! ## C8: remove_node on the path a β†’ b β†’ c -/

/-- The store after adding nodes a=0, b=1, c=2 and the path edges
0 β†’ 1 β†’ 2 (the spec's `a β†’ b β†’ c` example). -/
def path_store_abc : NetworkGraph ℕ :=
  (((((NetworkGraph.empty ℕ).add_node { id := 0, ip := "10.0.0.1", node_type := "server" }).add_node
      { id := 1, ip := "10.0.0.2", node_type := "server" }).add_node
      { id := 2, ip := "10.0.0.3", node_type := "server" }).add_edge
      { source := 0, target := 1 }).add_edge
      { source := 1, target := 2 }

/-- The same store after `remove_node(b)`. -/
def path_store_removed : NetworkGraph ℕ := path_store_abc.remove_node 1

/-- C8, as the code actually behaves: removing b from the path a β†’ b β†’ c
removes b and both incident edges from the adjacency graph (so no DDoS or
port-scan alert can fire at any nonnegative threshold), but the store's
edge-record dict still holds both edge records (a,b) and (b,c) β€” the
removal forgets to clean `self.edges`, contradicting the claim (and the
method's own docstring) that every incident edge is removed from the
store. -/
theorem claim_C8_remove_node (t : ℤ) (ht : 0 ≤ t) :
    path_store_removed.graph.nodesList = [0, 2] ∧
    path_store_removed.graph.edgesList = [] ∧
    detect_ddos_attack path_store_removed (some t) = [] ∧
    detect_port_scan_attack path_store_removed (some t) = [] ∧
    path_store_removed.edges.map (fun p => p.1) = [(0, 1), (1, 2)] := by
  have hnodes : path_store_removed.graph.nodesList = [0, 2] := by decide
  have hedges : path_store_removed.graph.edgesList = [] := by decide
  refine ⟨hnodes, hedges, ?_, ?_, by decide⟩
  · rw [detect_ddos_attack_eq, List.map_eq_nil_iff, List.filter_eq_nil_iff]
    intro v hv
    have hdeg : path_store_removed.get_indegree v = 0 := by
      unfold NetworkGraph.get_indegree DiGraph.in_degree
      rw [hedges]
      rfl
    rw [hdeg]
    simp only [decide_eq_true_eq, Nat.cast_zero]
    omega
  · rw [detect_port_scan_attack_eq, List.map_eq_nil_iff, List.filter_eq_nil_iff]
    intro v hv
    have hdeg : path_store_removed.get_outdegree v = 0 := by
      unfold NetworkGraph.get_outdegree DiGraph.out_degree
      rw [hedges]
      rfl
    rw [hdeg]
    simp only [decide_eq_true_eq, Nat.cast_zero]
    omega

/-- Witness for C8 at threshold 0. -/
theorem claim_C8_remove_node_witness :
    detect_ddos_attack path_store_removed (some 0) = [] ∧
    path_store_removed.edges.map (fun p => p.1) = [(0, 1), (1, 2)] := by
  have h := claim_C8_remove_node 0 (by decide)
  exact ⟨h.2.2.1, h.2.2.2.2⟩

/-! ## C2: ordering of the aggregate pass -/

/-- The Python sort key `(severity_order[x.severity], x.confidence)`. -/
def alert_key {α : Type} (a : AttackAlert α) : ℕ × ℚ :=
  (severity_order a.severity, a.confidence)

/-- Descending-sortedness relation: `a` may precede `b` when `a`'s key is
lexicographically at least `b`'s. -/
def alert_key_ge {α : Type} (a b : AttackAlert α) : Prop :=
  severity_order b.severity < severity_order a.severity ∨
    (severity_order a.severity = severity_order b.severity ∧ b.confidence ≤ a.confidence)

theorem alert_key_ge_of_lt {α : Type} {a b : AttackAlert α} (h : alert_key_lt a b) :
    alert_key_ge b a := by
  rcases h with h | ⟨he, hc⟩
  · exact Or.inl h
  · exact Or.inr ⟨he.symm, le_of_lt hc⟩

theorem alert_key_ge_of_not_lt {α : Type} {a b : AttackAlert α} (h : ¬ alert_key_lt a b) :
    alert_key_ge a b := by
  unfold alert_key_lt at h
  push_neg at h
  rcases lt_trichotomy (severity_order b.severity) (severity_order a.severity) with hlt | heq | hgt
  · exact Or.inl hlt
  · exact Or.inr ⟨heq.symm, h.2 heq.symm⟩
  · exact absurd hgt (not_lt.mpr h.1)

theorem alert_key_ge_trans {α : Type} {a b c : AttackAlert α}
    (hab : alert_key_ge a b) (hbc : alert_key_ge b c) : alert_key_ge a c := by
  rcases hab with h1 | ⟨he1, hc1⟩ <;> rcases hbc with h2 | ⟨he2, hc2⟩
  · exact Or.inl (lt_trans h2 h1)
  · exact Or.inl (he2 ▸ h1)
  · exact Or.inl (he1 ▸ h2)
  · exact Or.inr ⟨he1.trans he2, le_trans hc2 hc1⟩

theorem sort_insert_perm {α : Type} (x : AttackAlert α) (l : List (AttackAlert α)) :
    (sort_insert x l).Perm (x :: l) := by
  induction l with
  | nil => exact List.Perm.refl _
  | cons y rest ih =>
    unfold sort_insert
    split
    · exact ((ih.cons y).trans (List.Perm.swap x y rest))
    · exact List.Perm.refl _

theorem sort_alerts_perm {α : Type} (l : List (AttackAlert α)) :
    (sort_alerts l).Perm l := by
  induction l with
  | nil => exact List.Perm.refl _
  | cons x rest ih =>
    unfold sort_alerts
    exact (sort_insert_perm x (sort_alerts rest)).trans (ih.cons x)

theorem sort_insert_pairwise {α : Type} (x : AttackAlert α) (l : List (AttackAlert α))
    (h : l.Pairwise alert_key_ge) : (sort_insert x l).Pairwise alert_key_ge := by
  induction l with
  | nil => simp [sort_insert]
  | cons y rest ih =>
    rcases List.pairwise_cons.mp h with ⟨hy, hrest⟩
    unfold sort_insert
    split
    · next hlt =>
      refine List.pairwise_cons.mpr ⟨?_, ih hrest⟩
      intro b hb
      rcases List.mem_cons.mp ((sort_insert_perm x rest).mem_iff.mp hb) with hbx | hbr
      · exact hbx ▸ alert_key_ge_of_lt hlt
      · exact hy b hbr
    · next hnlt =>
      refine List.pairwise_cons.mpr ⟨?_, List.pairwise_cons.mpr ⟨hy, hrest⟩⟩
      intro b hb
      rcases List.mem_cons.mp hb with hby | hbr
      · exact hby ▸ alert_key_ge_of_not_lt hnlt
      · exact alert_key_ge_trans (alert_key_ge_of_not_lt hnlt) (hy b hbr)

theorem sort_alerts_pairwise {α : Type} (l : List (AttackAlert α)) :
    (sort_alerts l).Pairwise alert_key_ge := by
  induction l with
  | nil => simp [sort_alerts]
  | cons x rest ih =>
    unfold sort_alerts
    exact sort_insert_pairwise x (sort_alerts rest) ih

theorem alert_key_ne_of_lt {α : Type} {x y : AttackAlert α} (h : alert_key_lt x y) :
    alert_key y ≠ alert_key x := by
  intro hk
  have h1 : severity_order y.severity = severity_order x.severity := congrArg Prod.fst hk
  have h2 : y.confidence = x.confidence := congrArg Prod.snd hk
  rcases h with h | ⟨_, hc⟩
  · omega
  · rw [h2] at hc
    exact lt_irrefl _ hc

theorem sort_insert_filter_key {α : Type} (x : AttackAlert α) (l : List (AttackAlert α))
    (k : ℕ × ℚ) :
    (sort_insert x l).filter (fun a => decide (alert_key a = k)) =
      if alert_key x = k then x :: l.filter (fun a => decide (alert_key a = k))
      else l.filter (fun a => decide (alert_key a = k)) := by
  induction l with
  | nil =>
    unfold sort_insert
    by_cases hx : alert_key x = k <;> simp [hx]
  | cons y rest ih =>
    unfold sort_insert
    split
    · next hlt =>
      by_cases hx : alert_key x = k
      · have hy : ¬ alert_key y = k := by
          rw [← hx]
          exact alert_key_ne_of_lt hlt
        simp [List.filter_cons, hx, hy, ih]
      · simp [List.filter_cons, hx, ih]
    · next hnlt =>
      by_cases hx : alert_key x = k <;>
        simp [List.filter_cons, hx]

theorem sort_alerts_filter_key {α : Type} (l : List (AttackAlert α)) (k : ℕ × ℚ) :
    (sort_alerts l).filter (fun a => decide (alert_key a = k)) =
      l.filter (fun a => decide (alert_key a = k)) := by
  induction l with
  | nil => rfl
  | cons x rest ih =>
    unfold sort_alerts
    rw [sort_insert_filter_key, List.filter_cons]
    by_cases hx : alert_key x = k <;> simp [hx, ih]

/-- C2: the alert list returned by the aggregate pass is the stable
descending sort, by (severity rank, confidence) lexicographically, of the
five detectors' outputs concatenated in emission order
(DDoS, botnet, port-scan, worm, C2): it is pairwise ordered by
`alert_key_ge`, it is a permutation of the concatenation, key-tied alerts
keep their concatenation (emission) order, and the whole sorted batch is
appended to the history. -/
theorem claim_C2_detect_all_sorted {α : Type} [LinearOrder α] (g : NetworkGraph α)
    (history : List (AttackAlert α)) :
    (detect_all_attacks g history).1 =
      sort_alerts (detect_ddos_attack g none ++ detect_botnet_attack g ++
        detect_port_scan_attack g none ++ detect_worm_propagation g none none ++
        detect_c2_attack g) ∧
    (detect_all_attacks g history).1.Pairwise alert_key_ge ∧
    (detect_all_attacks g history).1.Perm
      (detect_ddos_attack g none ++ detect_botnet_attack g ++
        detect_port_scan_attack g none ++ detect_worm_propagation g none none ++
        detect_c2_attack g) ∧
    (∀ k : ℕ × ℚ,
      (detect_all_attacks g history).1.filter (fun a => decide (alert_key a = k)) =
        (detect_ddos_attack g none ++ detect_botnet_attack g ++
          detect_port_scan_attack g none ++ detect_worm_propagation g none none ++
          detect_c2_attack g).filter (fun a => decide (alert_key a = k))) ∧
    (detect_all_attacks g history).2 = history ++ (detect_all_attacks g history).1 := by
  refine ⟨rfl, ?_, ?_, ?_, rfl⟩
  · exact sort_alerts_pairwise _
  · exact sort_alerts_perm _
  · intro k
    exact sort_alerts_filter_key _ k

/-! ## C1: worm propagation on a directed path -/

/-- Evaluation of `detect_worm_propagation` at an explicit start node and
threshold. -/
theorem detect_worm_propagation_some {α : Type} [DecidableEq α] (g : NetworkGraph α)
    (s : α) (t : ℤ) :
    detect_worm_propagation g (some s) (some t) =
      if s ∈ g.graph.nodesList then
        (if ((bfs_reachable g.graph s).length : ℤ) > t then
          [{ attack_type := AttackType.WORM
             source_nodes := [s]
             target_nodes := bfs_reachable g.graph s
             confidence := min 1 (((bfs_reachable g.graph s).length : ℚ) / ((t : ℚ) * 2))
             timestamp := 0
             severity := if ((bfs_reachable g.graph s).length : ℤ) > t * 2
               then "high" else "medium" }]
        else [])
      else [] := by
  unfold detect_worm_propagation
  simp only [Option.getD_some]
  by_cases hs : s ∈ g.graph.nodesList
  · by_cases hlen : ((bfs_reachable g.graph s).length : ℤ) > t <;>
      simp [hs, hlen, List.filterMap_cons]
  · simp [hs, List.filterMap_cons]

theorem range_filter_eq (N j : ℕ) :
    (List.range N).filter (fun i => decide (i = j)) = if j < N then [j] else [] := by
  induction N with
  | zero => simp
  | succ n ih =>
    rw [List.range_succ, List.filter_append, ih]
    by_cases h1 : j < n
    · have h2 : j < n + 1 := by omega
      have h3 : ¬ n = j := by omega
      simp [h1, h2, h3]
    · by_cases h4 : j = n
      · subst h4
        simp
      · have h5 : ¬ j < n + 1 := by omega
        simp [h1, h4, h5, Ne.symm h4]

theorem path_successors (N j : ℕ) :
    (path_digraph N).successors j = if j < N then [j + 1] else [] := by
  unfold path_digraph DiGraph.successors
  rw [List.filter_map]
  have hc : ((fun e : ℕ × ℕ => decide (e.1 = j)) ∘ fun i => (i, i + 1)) =
      fun i => decide (i = j) := by
    funext i
    simp
  rw [hc, range_filter_eq]
  by_cases h : j < N <;> simp [h]

theorem bfs_loop_path (N : ℕ) : ∀ fuel j, j ≤ N → N - j < fuel →
    bfs_loop (path_digraph N) fuel [j] (List.range (j + 1)) = List.range (N + 1) := by
  intro fuel
  induction fuel with
  | zero =>
    intro j hj hf
    omega
  | succ f ih =>
    intro j hj hf
    rcases Nat.eq_or_lt_of_le hj with hjN | hlt
    · subst hjN
      have hsucc : (path_digraph j).successors j = [] := by
        rw [path_successors]
        simp
      show bfs_loop (path_digraph j) (f + 1) [j] (List.range (j + 1)) = List.range (j + 1)
      rw [bfs_loop, hsucc]
      show bfs_loop (path_digraph j) f ([] ++ []) (List.range (j + 1)) = List.range (j + 1)
      cases f <;> rfl
    · have hsucc : (path_digraph N).successors j = [j + 1] := by
        rw [path_successors]
        simp [Nat.lt_of_succ_le hlt]
      have hvisit : bfs_visit [j + 1] (List.range (j + 1)) =
          (List.range (j + 2), [j + 1]) := by
        unfold bfs_visit
        simp [List.mem_range, List.range_succ]
      rw [bfs_loop, hsucc, hvisit]
      show bfs_loop (path_digraph N) f ([] ++ [j + 1]) (List.range (j + 2)) = List.range (N + 1)
      rw [List.nil_append]
      exact ih (j + 1) hlt (by omega)

theorem bfs_reachable_path (N : ℕ) :
    bfs_reachable (path_digraph N) 0 = List.range (N + 1) := by
  unfold bfs_reachable
  have h0 : (1 : ℕ) = 0 + 1 := rfl
  have : bfs_loop (path_digraph N)
      ((path_digraph N).nodesList.length + (path_digraph N).edgesList.length + 1)
      [0] (List.range (0 + 1)) = List.range (N + 1) := by
    apply bfs_loop_path N _ 0 (Nat.zero_le N)
    have hn : (path_digraph N).nodesList.length = N + 1 := by
      unfold path_digraph
      simp
    omega
  simpa using this

/-- C1 as amended: BFS marks the start node visited, so on the path
nβ‚€ β†’ … β†’ n_N started at nβ‚€ the reachable set has size N+1 (not N), and a
worm alert (with that full visited set as targets) is emitted iff the
threshold t satisfies t < N+1 β€” in particular an alert still fires at
t = N, and none fires iff t β‰₯ N+1. -/
theorem claim_C1_worm_path (N : ℕ) (t : ℤ) (ht : 1 ≤ t) (ths : Thresholds) :
    detect_worm_propagation (mk_state (path_digraph N) ths) (some 0) (some t) =
      if t < (N : ℤ) + 1 then
        [{ attack_type := AttackType.WORM
           source_nodes := [0]
           target_nodes := List.range (N + 1)
           confidence := min 1 (((N : ℚ) + 1) / ((t : ℚ) * 2))
           timestamp := 0
           severity := if (N : ℤ) + 1 > t * 2 then "high" else "medium" }]
      else [] := by
  rw [detect_worm_propagation_some]
  have hgr : (mk_state (path_digraph N) ths).graph = path_digraph N := rfl
  rw [hgr, bfs_reachable_path]
  have hmem : 0 ∈ (path_digraph N).nodesList := by
    unfold path_digraph
    simp
  rw [if_pos hmem, List.length_range]
  have hcast : ((N + 1 : ℕ) : ℤ) = (N : ℤ) + 1 := by push_cast; ring
  have hcastq : ((N + 1 : ℕ) : ℚ) = (N : ℚ) + 1 := by push_cast; ring
  by_cases hc : t < (N : ℤ) + 1
  · rw [if_pos (by omega : ((N + 1 : ℕ) : ℤ) > t), if_pos hc, hcastq]
    by_cases hs : (N : ℤ) + 1 > t * 2
    · rw [if_pos (by omega : ((N + 1 : ℕ) : ℤ) > t * 2), if_pos hs]
    · rw [if_neg (by omega : ¬ ((N + 1 : ℕ) : ℤ) > t * 2), if_neg hs]
  · rw [if_neg (by omega : ¬ ((N + 1 : ℕ) : ℤ) > t), if_neg hc]

/-- Counterexample to C1 as stated: on the path nβ‚€ β†’ n₁ β†’ nβ‚‚ (N = 2) with
threshold T = 2 = N, the claim says no alert is emitted; the code emits
one alert, and its target list has size 3 = N+1, not N. -/
theorem claim_C1_worm_path_counterexample :
    (detect_worm_propagation (mk_state (path_digraph 2) default_thresholds)
        (some 0) (some 2)).map (fun a => a.target_nodes.length) = [3] := by
  decide

/-- Witness for the amended C1 at N = 2, t = 2. -/
theorem claim_C1_worm_path_witness :
    detect_worm_propagation (mk_state (path_digraph 2) default_thresholds)
        (some 0) (some 2) =
      [{ attack_type := AttackType.WORM
         source_nodes := [0]
         target_nodes := [0, 1, 2]
         confidence := min 1 ((3 : ℚ) / 4)
         timestamp := 0
         severity := "medium" }] := by
  have h := claim_C1_worm_path 2 2 (by decide) default_thresholds
  rw [h]
  norm_num
  decide

/-! ## C5: botnet detection on a k-cycle -/

theorem chain_edges_iff {α : Type} [DecidableEq α] (g : DiGraph α) :
    ∀ c : List α, chain_edges g c = true ↔
      List.Chain' (fun a b => (a, b) ∈ g.edgesList) c := by
  intro c
  induction c with
  | nil => simp [chain_edges]
  | cons a rest ih =>
    cases rest with
    | nil => simp [chain_edges]
    | cons b rest' =>
      rw [chain_edges, List.chain'_cons, Bool.and_eq_true, decide_eq_true_eq]
      exact and_congr_right (fun _ => ih)

theorem cycle_edge_mem (k a b : ℕ) :
    ((a, b) ∈ (cycle_digraph k).edgesList) ↔ (a < k ∧ b = (a + 1) % k) := by
  unfold cycle_digraph
  simp only [List.mem_map, List.mem_range, Prod.mk.injEq]
  constructor
  · rintro ⟨i, hik, rfl, rfl⟩
    exact ⟨hik, rfl⟩
  · rintro ⟨ha, rfl⟩
    exact ⟨a, ha, rfl, rfl⟩

theorem cycle_chain_shape (k : ℕ) : ∀ (rest : List ℕ) (h : ℕ), h < k →
    List.Chain' (fun a b => (a, b) ∈ (cycle_digraph k).edgesList) (h :: rest) →
    h :: rest = (List.range (rest.length + 1)).map (fun i => (h + i) % k) := by
  intro rest
  induction rest with
  | nil =>
    intro h hk _
    have h1 : List.range 1 = [0] := rfl
    simp [h1, Nat.mod_eq_of_lt hk]
  | cons b rest' ih =>
    intro h hk hchain
    rw [List.chain'_cons] at hchain
    obtain ⟨hedge, hchain'⟩ := hchain
    rw [cycle_edge_mem] at hedge
    obtain ⟨hak, hb⟩ := hedge
    have hkpos : 0 < k := by omega
    have hbk : b < k := hb ▸ Nat.mod_lt _ hkpos
    have hrec := ih b hbk hchain'
    show h :: b :: rest' = (List.range (rest'.length + 1 + 1)).map (fun i => (h + i) % k)
    rw [List.range_succ_eq_map (rest'.length + 1), List.map_cons, List.map_map]
    have hhead : (h + 0) % k = h := by
      simp [Nat.mod_eq_of_lt hk]
    rw [hhead]
    congr 1
    rw [hrec]
    apply List.map_congr_left
    intro i _
    simp only [Function.comp_apply]
    rw [hb, Nat.mod_add_mod]
    congr 1
    omega

theorem getLast_congr_of_eq {β : Type} (l₁ l₂ : List β) (hne : l₁ ≠ []) (he : l₁ = l₂) :
    l₁.getLast hne = l₂.getLast (he ▸ hne) := by
  subst he
  rfl

theorem is_simple_cycle_cycle_digraph (k : ℕ) (hk : 1 ≤ k) (c : List ℕ) :
    is_simple_cycle (cycle_digraph k) c = true ↔ c = List.range k := by
  have hkpos : 0 < k := hk
  constructor
  · intro hc
    cases c with
    | nil => simp [is_simple_cycle] at hc
    | cons h rest =>
      rw [is_simple_cycle] at hc
      simp only [Bool.and_eq_true, decide_eq_true_eq, List.all_eq_true] at hc
      obtain ⟨⟨⟨hchainb, hclose⟩, hnodup⟩, hmin⟩ := hc
      have hchain := (chain_edges_iff (cycle_digraph k) (h :: rest)).mp hchainb
      rw [cycle_edge_mem] at hclose
      obtain ⟨hlast_lt, hh⟩ := hclose
      have hhk : h < k := hh ▸ Nat.mod_lt _ hkpos
      have hshape : h :: rest = (List.range (rest.length + 1)).map (fun i => (h + i) % k) :=
        cycle_chain_shape k rest h hhk hchain
      have hlastval : (h :: rest).getLast (List.cons_ne_nil h rest) =
          (h + rest.length) % k := by
        rw [getLast_congr_of_eq _ _ (List.cons_ne_nil h rest) hshape, List.getLast_map,
          List.getLast_range]
        simp
      rw [hlastval, Nat.mod_add_mod] at hh
      have hdvd : k ∣ rest.length + 1 := by
        have h2 : h % k = (h + (rest.length + 1)) % k := by
          rw [Nat.mod_eq_of_lt hhk]
          rw [show h + (rest.length + 1) = h + rest.length + 1 by omega]
          exact hh
        have := (Nat.modEq_iff_dvd' (Nat.le_add_right h (rest.length + 1))).mp h2
        simpa using this
      have hmk : rest.length + 1 ≤ k := by
        by_contra hgt
        push_neg at hgt
        rw [hshape] at hnodup
        have hinj := (List.nodup_map_iff_inj_on (List.nodup_range _)).mp hnodup
        have h0m : (0 : ℕ) ∈ List.range (rest.length + 1) := List.mem_range.mpr (by omega)
        have hkm : k ∈ List.range (rest.length + 1) := List.mem_range.mpr hgt
        have hfe : (h + 0) % k = (h + k) % k := by
          simp [Nat.add_mod_right, Nat.mod_eq_of_lt hhk]
        have := hinj 0 h0m k hkm hfe
        omega
      have hmeqk : rest.length + 1 = k :=
        le_antisymm hmk (Nat.le_of_dvd (by omega) hdvd)
      have h0mem : (0 : ℕ) ∈ h :: rest := by
        rw [hshape]
        refine List.mem_map.mpr ⟨(k - h) % k, ?_, ?_⟩
        · rw [hmeqk]
          exact List.mem_range.mpr (Nat.mod_lt _ hkpos)
        · by_cases hh0 : h = 0
          · subst hh0
            simp
          · have he1 : (k - h) % k = k - h := Nat.mod_eq_of_lt (by omega)
            rw [he1, show h + (k - h) = k by omega, Nat.mod_self]
      have hh0 : h = 0 := Nat.le_zero.mp (hmin 0 h0mem)
      rw [hshape, hmeqk]
      refine (List.map_congr_left ?_).trans (List.map_id (List.range k))
      intro i hi
      rw [hh0]
      simpa using Nat.mod_eq_of_lt (List.mem_range.mp hi)
  · intro hc
    subst hc
    obtain ⟨k', rfl⟩ : ∃ k', k = k' + 1 := ⟨k - 1, by omega⟩
    rw [List.range_succ_eq_map k', is_simple_cycle]
    simp only [Bool.and_eq_true, decide_eq_true_eq, List.all_eq_true]
    refine ⟨⟨⟨?_, ?_⟩, ?_⟩, ?_⟩
    · rw [chain_edges_iff, ← List.range_succ_eq_map k', List.chain'_range_succ]
      intro m hm
      rw [cycle_edge_mem]
      exact ⟨by omega, (Nat.mod_eq_of_lt (by omega)).symm⟩
    · rw [getLast_congr_of_eq _ _ _ (List.range_succ_eq_map k').symm, List.getLast_range]
      rw [cycle_edge_mem]
      refine ⟨by omega, ?_⟩
      rw [show k' + 1 - 1 + 1 = k' + 1 by omega, Nat.mod_self]
    · rw [← List.range_succ_eq_map k']
      exact List.nodup_range _
    · intro x _
      exact Nat.zero_le x

theorem countP_eq_ite_mem_of_nodup {β : Type} [DecidableEq β] (l : List β) (hl : l.Nodup)
    (a : β) : l.countP (fun x => decide (x = a)) = if a ∈ l then 1 else 0 := by
  have h := countP_beq_and_of_nodup l hl a (fun x => true)
  simp only [Bool.and_true, and_true] at h
  exact h

theorem countP_flatMap_eq_sum {β γ : Type} (l : List β) (f : β → List γ) (p : γ → Bool) :
    (l.flatMap f).countP p = (l.map (fun s => (f s).countP p)).sum := by
  induction l with
  | nil => rfl
  | cons y ys ih =>
    rw [List.flatMap_cons, List.countP_append, ih, List.map_cons, List.sum_cons]

theorem sum_map_ite_countP {β : Type} [DecidableEq β] (a : β) (l : List β) :
    (l.map (fun s => if s = a then (1 : ℕ) else 0)).sum =
      l.countP (fun s => decide (s = a)) := by
  induction l with
  | nil => rfl
  | cons x xs ih =>
    rw [List.map_cons, List.sum_cons, ih, List.countP_cons]
    by_cases hx : x = a <;> simp [hx, Nat.add_comm]

theorem filter_eq_singleton_of_countP {β : Type} (p : β → Bool) (l : List β) (a : β)
    (hall : ∀ x ∈ l, p x = true → x = a) (hc : l.countP p = 1) :
    l.filter p = [a] := by
  have hlen : (l.filter p).length = 1 := by
    rw [← List.countP_eq_length_filter]
    exact hc
  obtain ⟨x, hx⟩ : ∃ x, l.filter p = [x] := List.length_eq_one.mp hlen
  rw [hx]
  have hxmem : x ∈ l.filter p := hx ▸ List.mem_singleton_self x
  rcases List.mem_filter.mp hxmem with ⟨hxl, hpx⟩
  rw [hall x hxl hpx]

theorem perm_of_mem_insert_everywhere {β : Type} (x : β) :
    ∀ (s l : List β), l ∈ insert_everywhere x s → l.Perm (x :: s) := by
  intro s
  induction s with
  | nil =>
    intro l hl
    rw [show l = [x] by simpa [insert_everywhere] using hl]
  | cons y ys ih =>
    intro l hl
    rw [insert_everywhere] at hl
    rcases List.mem_cons.mp hl with rfl | hl2
    · exact List.Perm.refl _
    · rcases List.mem_map.mp hl2 with ⟨zs, hzs, rfl⟩
      exact (List.Perm.cons y (ih zs hzs)).trans (List.Perm.swap x y ys)

theorem head_cons_mem_insert_everywhere {β : Type} (x : β) (s : List β) :
    x :: s ∈ insert_everywhere x s := by
  cases s <;> simp [insert_everywhere]

theorem self_mem_perms {β : Type} : ∀ l : List β, l ∈ perms l := by
  intro l
  induction l with
  | nil => simp [perms]
  | cons x xs ih =>
    rw [perms]
    exact List.mem_flatMap.mpr ⟨xs, ih, head_cons_mem_insert_everywhere x xs⟩

theorem perm_of_mem_perms {β : Type} : ∀ (s l : List β), l ∈ perms s → l.Perm s := by
  intro s
  induction s with
  | nil =>
    intro l hl
    rw [show l = [] by simpa [perms] using hl]
  | cons x xs ih =>
    intro l hl
    rw [perms] at hl
    rcases List.mem_flatMap.mp hl with ⟨zs, hzs, hl2⟩
    exact (perm_of_mem_insert_everywhere x zs l hl2).trans (List.Perm.cons x (ih zs hzs))

theorem erase_of_mem_insert_everywhere {β : Type} [DecidableEq β] (x : β) :
    ∀ (zs l : List β), x ∉ zs → l ∈ insert_everywhere x zs → l.erase x = zs := by
  intro zs
  induction zs with
  | nil =>
    intro l _ hl
    rw [show l = [x] by simpa [insert_everywhere] using hl]
    simp
  | cons y ys ih =>
    intro l hx hl
    rw [insert_everywhere] at hl
    have hyx : ¬ y = x := fun h => hx (by simp [h])
    have hxys : x ∉ ys := fun h => hx (List.mem_cons_of_mem _ h)
    rcases List.mem_cons.mp hl with rfl | hl2
    · simp
    · rcases List.mem_map.mp hl2 with ⟨zs₂, hzs₂, rfl⟩
      simp [List.erase_cons, hyx, ih zs₂ hxys hzs₂]

theorem nodup_insert_everywhere {β : Type} (x : β) :
    ∀ (zs : List β), x ∉ zs → (insert_everywhere x zs).Nodup := by
  intro zs
  induction zs with
  | nil =>
    intro _
    simp [insert_everywhere]
  | cons y ys ih =>
    intro hx
    have hyx : ¬ y = x := fun h => hx (by simp [h])
    have hxys : x ∉ ys := fun h => hx (List.mem_cons_of_mem _ h)
    rw [insert_everywhere]
    refine List.nodup_cons.mpr ⟨?_, ?_⟩
    · intro hmem
      rcases List.mem_map.mp hmem with ⟨zs₂, _, heq⟩
      injection heq with h1 _
      exact hyx h1
    · have hinj : Function.Injective (fun zs : List β => y :: zs) := by
        intro a b h
        injection h
      exact (ih hxys).map hinj

theorem nodup_perms {β : Type} [DecidableEq β] : ∀ (s : List β), s.Nodup → (perms s).Nodup := by
  intro s
  induction s with
  | nil =>
    intro _
    simp [perms]
  | cons x xs ih =>
    intro hnd
    rcases List.nodup_cons.mp hnd with ⟨hx, hxs⟩
    rw [perms, List.nodup_flatMap]
    have hnotin : ∀ zs ∈ perms xs, x ∉ zs := by
      intro zs hzs hmem
      exact hx ((perm_of_mem_perms xs zs hzs).subset hmem)
    refine ⟨fun zs hzs => nodup_insert_everywhere x zs (hnotin zs hzs), ?_⟩
    have hpnd : (perms xs).Pairwise (· ≠ ·) := ih hxs
    refine List.Pairwise.imp_of_mem ?_ hpnd
    intro zs zs' hzs hzs' hne
    intro l hl hl'
    exact hne ((erase_of_mem_insert_everywhere x zs l (hnotin zs hzs) hl).symm.trans
      (erase_of_mem_insert_everywhere x zs' l (hnotin zs' hzs') hl'))

theorem simple_cycles_cycle_digraph (k : ℕ) (hk : 1 ≤ k) :
    simple_cycles (cycle_digraph k) = [List.range k] := by
  unfold simple_cycles
  have hnodes : (cycle_digraph k).nodesList = List.range k := rfl
  rw [hnodes]
  apply filter_eq_singleton_of_countP
  · intro c _ hc
    exact (is_simple_cycle_cycle_digraph k hk c).mp hc
  · have hfe : ((List.range k).sublists.flatMap perms).countP
        (is_simple_cycle (cycle_digraph k)) =
        ((List.range k).sublists.flatMap perms).countP
          (fun c => decide (c = List.range k)) := by
      apply List.countP_congr
      intro c _
      constructor
      · intro hc
        simpa using (is_simple_cycle_cycle_digraph k hk c).mp hc
      · intro hc
        exact (is_simple_cycle_cycle_digraph k hk c).mpr (by simpa using hc)
    rw [hfe, countP_flatMap_eq_sum]
    have hmap : List.map (fun s => (perms s).countP (fun c => decide (c = List.range k)))
        (List.range k).sublists =
        List.map (fun s => if s = List.range k then (1 : ℕ) else 0) (List.range k).sublists := by
      apply List.map_congr_left
      intro s hs
      have hsub : s.Sublist (List.range k) := List.mem_sublists.mp hs
      rw [countP_eq_ite_mem_of_nodup _ (nodup_perms _
        (hsub.nodup (List.nodup_range k))) _]
      by_cases hse : s = List.range k
      · subst hse
        rw [if_pos (self_mem_perms _), if_pos rfl]
      · rw [if_neg, if_neg hse]
        intro hmem
        have hperm : (List.range k).Perm s := perm_of_mem_perms s _ hmem
        exact hse (hsub.eq_of_length hperm.length_eq.symm)
    rw [hmap, sum_map_ite_countP, countP_eq_ite_mem_of_nodup _
      (List.nodup_sublists.mpr (List.nodup_range k)) _]
    rw [if_pos (List.mem_sublists.mpr (List.Sublist.refl _))]

/-- Filter-map representation of `detect_botnet_attack`: one alert per
enumerated simple cycle of length at least 3, no deduplication. -/
theorem detect_botnet_attack_eq {α : Type} [LinearOrder α] (g : NetworkGraph α) :
    detect_botnet_attack g =
      ((simple_cycles g.graph).filter (fun c : List α => decide (3 ≤ c.length))).map
        (fun cycle =>
          { attack_type := AttackType.BOTNET
            source_nodes := cycle
            target_nodes := cycle
            confidence := min 1 ((cycle.length : ℚ) / 10)
            timestamp := 0
            severity := if 5 ≤ cycle.length then "high" else "medium" }) := by
  unfold detect_botnet_attack
  exact filterMap_ite (fun c : List α => 3 ≤ c.length) _ _

/-- C5: botnet detection emits exactly one alert per elementary cycle with
at least 3 nodes (second conjunct, over every graph), and on the pure
k-node directed cycle (k β‰₯ 3) it emits exactly one alert whose source and
target lists are the k cycle nodes, with confidence min(1, k/10) and
severity high iff k β‰₯ 5 (first conjunct). -/
theorem claim_C5_botnet_cycle (k : ℕ) (hk : 3 ≤ k) (ths : Thresholds) :
    detect_botnet_attack (mk_state (cycle_digraph k) ths) =
      [{ attack_type := AttackType.BOTNET
         source_nodes := List.range k
         target_nodes := List.range k
         confidence := min 1 ((k : ℚ) / 10)
         timestamp := 0
         severity := if 5 ≤ k then "high" else "medium" }] ∧
    (∀ g : NetworkGraph ℕ, (detect_botnet_attack g).length =
      ((simple_cycles g.graph).filter (fun c : List ℕ => decide (3 ≤ c.length))).length) := by
  constructor
  · rw [detect_botnet_attack_eq]
    have hgr : (mk_state (cycle_digraph k) ths).graph = cycle_digraph k := rfl
    rw [hgr, simple_cycles_cycle_digraph k (by omega)]
    have hlen : (List.range k).length = k := List.length_range k
    have hfil : [List.range k].filter (fun c : List ℕ => decide (3 ≤ c.length)) = [List.range k] := by
      rw [List.filter_eq_self]
      intro a ha
      rw [List.mem_singleton.mp ha]
      simp [hlen]
      omega
    rw [hfil, List.map_cons, List.map_nil, hlen]
  · intro g
    rw [detect_botnet_attack_eq, List.length_map]

/-- Witness for C5 at k = 5: one high-severity alert over the 5-cycle. -/
theorem claim_C5_botnet_cycle_witness :
    detect_botnet_attack (mk_state (cycle_digraph 5) default_thresholds) =
      [{ attack_type := AttackType.BOTNET
         source_nodes := [0, 1, 2, 3, 4]
         target_nodes := [0, 1, 2, 3, 4]
         confidence := min 1 ((5 : ℚ) / 10)
         timestamp := 0
         severity := "high" }] := by
  have h := (claim_C5_botnet_cycle 5 (by decide) default_thresholds).1
  rw [h]
  norm_num
  decide

/-! ## C3: confidence bounds and monotonicity -/

theorem conf_min_bounds (x : ℚ) (hx : 0 ≤ x) : 0 ≤ min 1 x ∧ min 1 x ≤ 1 :=
  ⟨le_min (by norm_num) hx, min_le_left 1 x⟩

theorem conf_ratio_nonneg (m : ℕ) (t : ℤ) (ht : 1 ≤ t) :
    0 ≤ (m : ℚ) / ((t : ℚ) * 2) := by
  have ht' : (1 : ℚ) ≤ (t : ℚ) := by exact_mod_cast ht
  apply div_nonneg (Nat.cast_nonneg m)
  linarith

/-- Store with one edge 0 β†’ 1 and the externally mutated threshold
`ddos_indegree = -1` (thresholds are plain mutable Python ints). -/
def negative_threshold_store : NetworkGraph ℕ :=
  mk_state { nodesList := [0, 1], edgesList := [(0, 1)] }
    { ddos_indegree := -1, port_scan_outdegree := 30, worm_reachability := 100,
      c2_indegree_min := 10, c2_outdegree_max := 5 }

/-- Counterexample to C3 as stated: with the mutated threshold
`ddos_indegree = -1`, the node with indegree 1 gets a DDoS alert of
confidence 1/(2Β·(-1)) = -1/2 βˆ‰ [0,1]. -/
theorem claim_C3_confidence_counterexample :
    ∃ a ∈ detect_ddos_attack negative_threshold_store none, a.confidence < 0 := by
  have hth : negative_threshold_store.attack_thresholds.ddos_indegree = -1 := rfl
  rw [detect_ddos_attack_none, hth, detect_ddos_attack_eq]
  have hmem : (1 : ℕ) ∈ negative_threshold_store.graph.nodesList.filter
      (fun v => decide ((-1 : ℤ) < (negative_threshold_store.get_indegree v : ℤ))) := by
    decide
  refine ⟨_, List.mem_map_of_mem _ hmem, ?_⟩
  have hdeg : negative_threshold_store.get_indegree 1 = 1 := rfl
  show min 1 ((negative_threshold_store.get_indegree 1 : ℚ) / (((-1 : ℤ) : ℚ) * 2)) < 0
  rw [hdeg]
  norm_num [min_def]

/-- C3 as amended: for positive thresholds every alert produced by each of
the five detectors has confidence in [0,1] (the botnet detector needs no
threshold at all), and for a fixed positive threshold the confidence
formula min(1, metric/(2Β·threshold)) β€” and the botnet formula
min(1, length/10) β€” is monotonically non-decreasing in the triggering
metric. -/
theorem claim_C3_confidence {α : Type} [LinearOrder α] :
    (∀ (g : NetworkGraph α) (t : ℤ), 1 ≤ t →
      ∀ a ∈ detect_ddos_attack g (some t), 0 ≤ a.confidence ∧ a.confidence ≤ 1) ∧
    (∀ g : NetworkGraph α, ∀ a ∈ detect_botnet_attack g,
      0 ≤ a.confidence ∧ a.confidence ≤ 1) ∧
    (∀ (g : NetworkGraph α) (t : ℤ), 1 ≤ t →
      ∀ a ∈ detect_port_scan_attack g (some t), 0 ≤ a.confidence ∧ a.confidence ≤ 1) ∧
    (∀ (g : NetworkGraph α) (s : Option α) (t : ℤ), 1 ≤ t →
      ∀ a ∈ detect_worm_propagation g s (some t), 0 ≤ a.confidence ∧ a.confidence ≤ 1) ∧
    (∀ g : NetworkGraph α, 1 ≤ g.attack_thresholds.c2_indegree_min →
      ∀ a ∈ detect_c2_attack g, 0 ≤ a.confidence ∧ a.confidence ≤ 1) ∧
    (∀ (m m' : ℕ) (t : ℤ), 1 ≤ t → m ≤ m' →
      min 1 ((m : ℚ) / ((t : ℚ) * 2)) ≤ min 1 ((m' : ℚ) / ((t : ℚ) * 2))) ∧
    (∀ m m' : ℕ, m ≤ m' → min 1 ((m : ℚ) / 10) ≤ min 1 ((m' : ℚ) / 10)) := by
  refine ⟨?_, ?_, ?_, ?_, ?_, ?_, ?_⟩
  · intro g t ht a ha
    rw [detect_ddos_attack_eq] at ha
    rcases List.mem_map.mp ha with ⟨v, _, rfl⟩
    exact conf_min_bounds _ (conf_ratio_nonneg _ t ht)
  · intro g a ha
    rw [detect_botnet_attack_eq] at ha
    rcases List.mem_map.mp ha with ⟨c, _, rfl⟩
    refine conf_min_bounds _ ?_
    apply div_nonneg (Nat.cast_nonneg _)
    norm_num
  · intro g t ht a ha
    rw [detect_port_scan_attack_eq] at ha
    rcases List.mem_map.mp ha with ⟨v, _, rfl⟩
    exact conf_min_bounds _ (conf_ratio_nonneg _ t ht)
  · intro g s t ht a ha
    unfold detect_worm_propagation at ha
    simp only [Option.getD_some] at ha
    rcases List.mem_filterMap.mp ha with ⟨c, _, hfc⟩
    by_cases hc1 : c ∈ g.graph.nodesList
    · rw [if_pos hc1] at hfc
      by_cases hc2 : ((bfs_reachable g.graph c).length : ℤ) > t
      · rw [if_pos hc2] at hfc
        rcases Option.some.inj hfc with rfl
        exact conf_min_bounds _ (conf_ratio_nonneg _ t ht)
      · rw [if_neg hc2] at hfc
        exact absurd hfc (Option.noConfusion)
    · rw [if_neg hc1] at hfc
      exact absurd hfc (Option.noConfusion)
  · intro g hmin a ha
    rw [detect_c2_attack_eq] at ha
    rcases List.mem_map.mp ha with ⟨v, _, rfl⟩
    exact conf_min_bounds _ (conf_ratio_nonneg _ _ hmin)
  · intro m m' t ht hmm'
    have ht' : (1 : ℚ) ≤ (t : ℚ) := by exact_mod_cast ht
    have hden : (0 : ℚ) < (t : ℚ) * 2 := by linarith
    refine min_le_min (le_refl 1) ?_
    rw [div_le_div_iff_of_pos_right hden]
    exact_mod_cast hmm'
  · intro m m' hmm'
    refine min_le_min (le_refl 1) ?_
    have h10 : (0 : ℚ) < 10 := by norm_num
    rw [div_le_div_iff_of_pos_right h10]
    exact_mod_cast hmm'

/-- Witness for the amended C3: the single DDoS alert on `ddos_example` at
threshold 1 has its confidence min(1, indegree/2) inside [0,1]. -/
theorem claim_C3_confidence_witness :
    0 ≤ min (1 : ℚ) ((ddos_example.get_indegree 0 : ℚ) / (((1 : ℤ) : ℚ) * 2)) ∧
      min (1 : ℚ) ((ddos_example.get_indegree 0 : ℚ) / (((1 : ℤ) : ℚ) * 2)) ≤ 1 := by
  have h := (claim_C3_confidence (α := ℕ)).1 ddos_example 1 (by norm_num)
  rw [detect_ddos_attack_eq] at h
  have hmem0 : (0 : ℕ) ∈ ddos_example.graph.nodesList.filter
      (fun v => decide ((1 : ℤ) < (ddos_example.get_indegree v : ℤ))) := by
    decide
  exact h _ (List.mem_map_of_mem _ hmem0)

/-! ## C9: attack statistics -/

/-- Python `dict[k]` as a partial lookup. -/
def assoc_lookup {κ β : Type} [DecidableEq κ] (k : κ) : List (κ × β) → Option β
  | [] => none
  | (k', v) :: rest => if k' = k then some v else assoc_lookup k rest

theorem assoc_lookup_bump_same (k : String) (l : List (String × ℕ)) :
    assoc_lookup k (bump_count k l) = some ((assoc_lookup k l).getD 0 + 1) := by
  induction l with
  | nil => simp [bump_count, assoc_lookup]
  | cons p rest ih =>
    obtain ⟨k', n⟩ := p
    by_cases hk : k' = k
    · subst hk
      simp [bump_count, assoc_lookup]
    · simp [bump_count, assoc_lookup, hk, ih]

theorem assoc_lookup_bump_other (k k' : String) (hne : ¬ k' = k) (l : List (String × ℕ)) :
    assoc_lookup k (bump_count k' l) = assoc_lookup k l := by
  induction l with
  | nil => simp [bump_count, assoc_lookup, hne]
  | cons p rest ih =>
    obtain ⟨k'', n⟩ := p
    by_cases hk : k'' = k'
    · subst hk
      simp [bump_count, assoc_lookup, hne]
    · simp [bump_count, assoc_lookup, hk, ih]

theorem count_by_getD {α : Type} (key : AttackAlert α → String) :
    ∀ (l : List (AttackAlert α)) (acc : List (String × ℕ)) (s : String),
    (assoc_lookup s (l.foldl (fun acc a => bump_count (key a) acc) acc)).getD 0 =
      (assoc_lookup s acc).getD 0 + l.countP (fun a => decide (key a = s)) := by
  intro l
  induction l with
  | nil =>
    intro acc s
    simp
  | cons a rest ih =>
    intro acc s
    rw [List.foldl_cons, ih, List.countP_cons]
    by_cases hks : key a = s
    · rw [hks, assoc_lookup_bump_same]
      simp [hks]
      omega
    · rw [assoc_lookup_bump_other s (key a) hks]
      simp [hks]

theorem count_by_none {α : Type} (key : AttackAlert α → String) :
    ∀ (l : List (AttackAlert α)) (acc : List (String × ℕ)) (s : String),
    (assoc_lookup s (l.foldl (fun acc a => bump_count (key a) acc) acc) = none ↔
      (assoc_lookup s acc = none ∧ l.countP (fun a => decide (key a = s)) = 0)) := by
  intro l
  induction l with
  | nil =>
    intro acc s
    simp
  | cons a rest ih =>
    intro acc s
    rw [List.foldl_cons, ih, List.countP_cons]
    by_cases hks : key a = s
    · rw [hks, assoc_lookup_bump_same]
      simp [hks]
    · rw [assoc_lookup_bump_other s (key a) hks]
      simp [hks]

/-- Example store for the C9 example: leaves 0,1 feed the two DDoS targets
2,3 (which point at each other, a 2-cycle below the botnet bound), and
leaf 4 feeds the zero-outdegree C2 hub 5; thresholds mutated to
`ddos_indegree = 1`, `c2_indegree_min = 1`, `c2_outdegree_max = 0`. -/
def stats_example_store : NetworkGraph ℕ :=
  mk_state
    { nodesList := [0, 1, 2, 3, 4, 5]
      edgesList := [(0, 2), (1, 3), (2, 3), (3, 2), (4, 5)] }
    { ddos_indegree := 1, port_scan_outdegree := 30, worm_reachability := 100,
      c2_indegree_min := 1, c2_outdegree_max := 0 }

theorem stats_example_ddos :
    detect_ddos_attack stats_example_store none =
      [{ attack_type := AttackType.DDOS, source_nodes := [0, 3], target_nodes := [2],
         confidence := 1, timestamp := 0, severity := "medium" },
       { attack_type := AttackType.DDOS, source_nodes := [1, 2], target_nodes := [3],
         confidence := 1, timestamp := 0, severity := "medium" }] := by
  have hth : stats_example_store.attack_thresholds.ddos_indegree = 1 := rfl
  rw [detect_ddos_attack_none, hth, detect_ddos_attack_eq]
  have hfil : stats_example_store.graph.nodesList.filter
      (fun v => decide ((1 : ℤ) < (stats_example_store.get_indegree v : ℤ))) = [2, 3] := by
    decide
  rw [hfil, List.map_cons, List.map_cons, List.map_nil]
  have hp2 : stats_example_store.get_predecessors 2 = [0, 3] := rfl
  have hp3 : stats_example_store.get_predecessors 3 = [1, 2] := rfl
  have hi2 : stats_example_store.get_indegree 2 = 2 := rfl
  have hi3 : stats_example_store.get_indegree 3 = 2 := rfl
  rw [hp2, hp3, hi2, hi3]
  norm_num

set_option maxRecDepth 4000 in
theorem stats_example_botnet : detect_botnet_attack stats_example_store = [] := by
  rw [detect_botnet_attack_eq]
  have hfil : (simple_cycles stats_example_store.graph).filter
      (fun c : List ℕ => decide (3 ≤ c.length)) = [] := by
    decide
  rw [hfil, List.map_nil]

theorem stats_example_port_scan : detect_port_scan_attack stats_example_store none = [] := by
  have hth : stats_example_store.attack_thresholds.port_scan_outdegree = 30 := rfl
  rw [detect_port_scan_attack_none, hth, detect_port_scan_attack_eq]
  have hfil : stats_example_store.graph.nodesList.filter
      (fun v => decide ((30 : ℤ) < (stats_example_store.get_outdegree v : ℤ))) = [] := by
    decide
  rw [hfil, List.map_nil]

theorem stats_example_worm : detect_worm_propagation stats_example_store none none = [] := by
  unfold detect_worm_propagation
  have hfil : stats_example_store.graph.nodesList.filter
      (fun node => decide (5 < stats_example_store.get_outdegree node)) = [] := by
    decide
  simp only [hfil, List.filterMap_nil]

theorem stats_example_c2 :
    detect_c2_attack stats_example_store =
      [{ attack_type := AttackType.C2, source_nodes := [4], target_nodes := [5],
         confidence := 1 / 2, timestamp := 0, severity := "medium" }] := by
  rw [detect_c2_attack_eq]
  have hfil : stats_example_store.graph.nodesList.filter (fun v =>
      decide ((stats_example_store.get_indegree v : ℤ) ≥
          stats_example_store.attack_thresholds.c2_indegree_min ∧
        (stats_example_store.get_outdegree v : ℤ) ≤
          stats_example_store.attack_thresholds.c2_outdegree_max)) = [5] := by
    decide
  rw [hfil, List.map_cons, List.map_nil]
  have hp5 : stats_example_store.get_predecessors 5 = [4] := rfl
  have hi5 : stats_example_store.get_indegree 5 = 1 := rfl
  have hmin : stats_example_store.attack_thresholds.c2_indegree_min = 1 := rfl
  rw [hp5, hi5, hmin]
  norm_num

/-- C9: statistics return the explicit empty result (`none`, modelling the
empty dict) exactly when the history is empty; on a non-empty history they
report the total count, per-kind counts, per-severity counts, and the
count of alerts with confidence strictly above 0.8.  The example conjunct:
one aggregate pass on `stats_example_store` yields 2 DDoS and 1 C2 alert,
and the statistics over the resulting history report total 3 with kind
counts ddos:2, c2:1. -/
theorem claim_C9_statistics :
    (∀ (β : Type) (h : List (AttackAlert β)),
      (get_attack_statistics h = none ↔ h = []) ∧
      (∀ st : AttackStatistics, get_attack_statistics h = some st →
        st.total_attacks = h.length ∧
        (∀ s : String, (assoc_lookup s st.attack_types).getD 0 =
          h.countP (fun a => decide (a.attack_type.value = s))) ∧
        (∀ s : String, assoc_lookup s st.attack_types = none ↔
          h.countP (fun a => decide (a.attack_type.value = s)) = 0) ∧
        (∀ s : String, (assoc_lookup s st.severity_distribution).getD 0 =
          h.countP (fun a => decide (a.severity = s))) ∧
        st.high_confidence_attacks =
          h.countP (fun a => decide ((4 / 5 : ℚ) < a.confidence)))) ∧
    get_attack_statistics ((detect_all_attacks stats_example_store []).2) =
      some { total_attacks := 3
             attack_types := [("ddos", 2), ("c2", 1)]
             severity_distribution := [("medium", 3)]
             high_confidence_attacks := 2 } := by
  constructor
  · intro β h
    constructor
    · rw [get_attack_statistics]
      by_cases hemp : h.isEmpty
      · simp [hemp, List.isEmpty_iff.mp hemp]
      · simp [hemp]
        intro hnil
        exact hemp (by simp [hnil])
    · intro st hst
      rw [get_attack_statistics] at hst
      by_cases hemp : h.isEmpty
      · rw [if_pos hemp] at hst
        exact absurd hst Option.noConfusion
      · rw [if_neg hemp] at hst
        rcases Option.some.inj hst with rfl
        refine ⟨rfl, ?_, ?_, ?_, rfl⟩
        · intro s
          have hc := count_by_getD (fun a : AttackAlert β => a.attack_type.value) h [] s
          simpa [count_by, assoc_lookup] using hc
        · intro s
          have hc := count_by_none (fun a : AttackAlert β => a.attack_type.value) h [] s
          simpa [count_by, assoc_lookup] using hc
        · intro s
          have hc := count_by_getD (fun a : AttackAlert β => a.severity) h [] s
          simpa [count_by, assoc_lookup] using hc
  · have h2 : (detect_all_attacks stats_example_store []).2 =
        [] ++ sort_alerts (detect_ddos_attack stats_example_store none ++
          detect_botnet_attack stats_example_store ++
          detect_port_scan_attack stats_example_store none ++
          detect_worm_propagation stats_example_store none none ++
          detect_c2_attack stats_example_store) := rfl
    rw [h2, stats_example_ddos, stats_example_botnet, stats_example_port_scan,
      stats_example_worm, stats_example_c2]
    have hn1 : ¬ alert_key_lt
        ({ attack_type := AttackType.DDOS, source_nodes := [1, 2], target_nodes := [3],
           confidence := 1, timestamp := 0, severity := "medium" } : AttackAlert ℕ)
        ({ attack_type := AttackType.C2, source_nodes := [4], target_nodes := [5],
           confidence := 1 / 2, timestamp := 0, severity := "medium" } : AttackAlert ℕ) := by
      norm_num [alert_key_lt, severity_order]
    have hn2 : ¬ alert_key_lt
        ({ attack_type := AttackType.DDOS, source_nodes := [0, 3], target_nodes := [2],
           confidence := 1, timestamp := 0, severity := "medium" } : AttackAlert ℕ)
        ({ attack_type := AttackType.DDOS, source_nodes := [1, 2], target_nodes := [3],
           confidence := 1, timestamp := 0, severity := "medium" } : AttackAlert ℕ) := by
      norm_num [alert_key_lt, severity_order]
    have hsorted : sort_alerts
        ([{ attack_type := AttackType.DDOS, source_nodes := [0, 3], target_nodes := [2],
            confidence := 1, timestamp := 0, severity := "medium" },
          { attack_type := AttackType.DDOS, source_nodes := [1, 2], target_nodes := [3],
            confidence := 1, timestamp := 0, severity := "medium" }] ++ [] ++ [] ++ [] ++
         [{ attack_type := AttackType.C2, source_nodes := [4], target_nodes := [5],
            confidence := 1 / 2, timestamp := 0, severity := "medium" }] : List (AttackAlert ℕ)) =
        [{ attack_type := AttackType.DDOS, source_nodes := [0, 3], target_nodes := [2],
           confidence := 1, timestamp := 0, severity := "medium" },
         { attack_type := AttackType.DDOS, source_nodes := [1, 2], target_nodes := [3],
           confidence := 1, timestamp := 0, severity := "medium" },
         { attack_type := AttackType.C2, source_nodes := [4], target_nodes := [5],
           confidence := 1 / 2, timestamp := 0, severity := "medium" }] := by
      simp only [List.append_nil, List.nil_append, List.cons_append, List.singleton_append]
      simp only [sort_alerts, sort_insert, hn1, hn2, if_false]
    rw [hsorted, List.nil_append, get_attack_statistics]
    rw [if_neg (by simp)]
    simp only [Option.some.injEq]
    refine AttackStatistics.mk.injEq _ _ _ _ _ _ _ _ ▸ ?_
    refine ⟨rfl, ?_, ?_, ?_⟩
    · simp [count_by, bump_count, AttackType.value]
    · simp [count_by, bump_count]
    · simp only [List.countP_cons, List.countP_nil, decide_eq_true_eq]
      norm_num

/-- Witness for C9: statistics on the empty history are the explicit
empty result, and the concrete aggregate-pass example reports total 3 with
ddos:2 and c2:1. -/
theorem claim_C9_statistics_witness :
    get_attack_statistics ([] : List (AttackAlert ℕ)) = none ∧
    get_attack_statistics ((detect_all_attacks stats_example_store []).2) =
      some { total_attacks := 3
             attack_types := [("ddos", 2), ("c2", 1)]
             severity_distribution := [("medium", 3)]
             high_confidence_attacks := 2 } :=
  ⟨((claim_C9_statistics.1 ℕ []).1).mpr rfl, claim_C9_statistics.2⟩
